import Mathlib

/-! Shallow embedding of the CPM (C/C++ Package Manager) core from `cpm.go`:
the package graph data model, the fetch phase (`fetch`, `fetch_all`,
`git_clone`, `git_pull`, `git_switch`), the build phase (`build`,
`exec_commands`) and the symlink primitive (`Symlink`).

External collaborators are modelled as explicit oracles:
* subprocess execution (`Run`) is an oracle `exitCode : String → List String → Int`
  (the exit status the spawned process would report);
* `os.ExpandEnv` is an oracle `expandEnv : String → String` applied to each argument;
* the filesystem state that `fetch` inspects is an oracle
  `dirState : String → DirState` (per package directory);
* descriptor loading (`cpm.json`) is an oracle `desc : String → Option PacDesc`
  (`none` means the file is absent, which is not an error).

Every performed effect (directory creation, git invocation, symlink creation,
build-command execution) is recorded in an event trace, so temporal claims
("X happens before any build command") become statements about traces.
Recursion over the possibly-cyclic package graph uses explicit fuel, with a
distinguished out-of-fuel outcome. -/

namespace Cpm

/-- `Command` from cpm.go: an OS pattern, a program name and its arguments. -/
structure Command where
  os : String
  cmd : String
  args : List String
deriving DecidableEq

/-- `DependencyDescriptor` from cpm.go: one dependency edge as declared in a
descriptor.  The resolved `pack` pointer is modelled by name lookup in the
registry instead of an actual pointer. -/
structure DependencyDescriptor where
  name : String
  git : String
  branch : String
  https : String
  modules : List String
  fetchOnly : Bool
  post : List Command
deriving DecidableEq

/-- `PacUnit` from cpm.go: one package.  The `built` flag is modelled as
membership in the build state's `built` list rather than as a field, because
in Go it is mutated through a shared pointer held by the registry. -/
structure PacUnit where
  name : String
  git : String
  branch : String
  https : String
  build : List Command
  depends : List DependencyDescriptor
deriving DecidableEq

/-- Observable effects of a run: directory creation, a git invocation
(argument vector), a symlink creation intent (working directory, target,
link name — the arguments `fetch_all` passes to `Symlink`), and the execution
of a build-phase command (after environment expansion). -/
inductive Ev where
  | mkdir (path : String)
  | git (args : List String)
  | link (cwd : String) (target : String) (name : String)
  | exec (prog : String) (args : List String)
deriving DecidableEq

/-- Whether an event is the execution of a build-phase command. -/
def Ev.isExec : Ev → Bool
  | .exec _ _ => true
  | _ => false

/-- Whether an event is a `git clone` invocation. -/
def Ev.isClone : Ev → Bool
  | .git args => args.head? = some "clone"
  | _ => false

/-- The fatal conditions `log.Fatalf` reports in cpm.go, each carrying the
context the corresponding message prints. -/
inductive FatalErr where
  | cycle (name : String) (chain : List String)
  | cmdFailed (ret : Int)
  | branchConflict (name : String) (registered : String) (requested : String)
  | missingLocation (name : String)
  | localMissing (name : String)
  | missingPack (name : String)
  | gitFailed (name : String) (args : List String) (ret : Int)
  | linkCollision (link : String) (target : String)
  | outOfFuel
deriving DecidableEq

/-- Oracles used by the build phase: the current OS identifier
(`runtime.GOOS`), environment expansion (`os.ExpandEnv`) and the exit code
a spawned process reports (`Run`). -/
structure ExecCtx where
  goos : String
  expandEnv : String → String
  exitCode : String → List String → Int

/-- Accumulator for `strings.Fields`: `acc` holds the current field reversed. -/
def fieldsAux : List Char → List Char → List (List Char)
  | acc, [] => if acc = [] then [] else [acc.reverse]
  | acc, c :: cs =>
    if c.isWhitespace then
      if acc = [] then fieldsAux [] cs else acc.reverse :: fieldsAux [] cs
    else fieldsAux (c :: acc) cs

/-- Go's `strings.Fields`: split around runs of whitespace, dropping empty
fields (whitespace modelled by `Char.isWhitespace`). -/
def fields (s : String) : List String :=
  (fieldsAux [] s.data).map String.mk

/-- The inner loop of `exec_commands` (cpm.go lines 397-408): for each OS
token matching `"any"` or the current OS, expand the arguments and run the
command, stopping at the first non-zero exit status.  Returns the final
status together with the trace of executed commands. -/
def runTok (ctx : ExecCtx) (c : Command) : List String → Int × List Ev
  | [] => (0, [])
  | an_os :: rest =>
    if an_os = "any" ∨ an_os = ctx.goos then
      let exparg := c.args.map ctx.expandEnv
      let ret := ctx.exitCode c.cmd exparg
      if ret ≠ 0 then (ret, [.exec c.cmd exparg])
      else
        let r := runTok ctx c rest
        (r.1, .exec c.cmd exparg :: r.2)
    else runTok ctx c rest

/-- `exec_commands` from cpm.go: iterate the command list in declaration
order; an empty OS pattern is replaced by `"any"`; the pattern is split into
fields and the command runs once per applicable token; a non-zero exit status
aborts the iteration and is returned. -/
def exec_commands (ctx : ExecCtx) : List Command → Int × List Ev
  | [] => (0, [])
  | c :: rest =>
    let osPat := if c.os = "" then "any" else c.os
    let r := runTok ctx c (fields osPat)
    if r.1 ≠ 0 then r
    else
      let r2 := exec_commands ctx rest
      (r2.1, r.2 ++ r2.2)

/-- The OS tokens of a command's pattern that apply on the given OS:
tokens equal to `"any"` or to the OS identifier (empty pattern ↦ `"any"`). -/
def applicable (goos : String) (c : Command) : List String :=
  (fields (if c.os = "" then "any" else c.os)).filter
    (fun t => decide (t = "any" ∨ t = goos))

/-- The event a single execution of command `c` produces. -/
def evOf (ctx : ExecCtx) (c : Command) : Ev :=
  .exec c.cmd (c.args.map ctx.expandEnv)

/-- Build-phase state: the names whose `built` flag is set, the `inprocess`
stack of cpm.go, and the trace of executed commands. -/
structure BSt where
  built : List String
  inprocess : List String
  trace : List Ev
deriving DecidableEq

/-- Outcome of the build phase: normal return, a `log.Fatalf` abort carrying
the state at the abort, or fuel exhaustion (never an actual cpm.go outcome;
all theorems supply enough fuel). -/
inductive BRes where
  | ok (st : BSt)
  | fatal (e : FatalErr) (st : BSt)
  | stuck (st : BSt)
deriving DecidableEq

/-- The package registry: cpm.go's `all_packs` slice, looked up by name.
Names in `all_packs` are unique, so name lookup models the `pack` pointers. -/
def Registry : Type := String → Option PacUnit

/-- Registry built from a list of packages (first match by name, like the
linear scan of `all_packs`). -/
def mkReg (l : List PacUnit) : Registry := fun n => l.find? (fun p => p.name = n)

mutual

/-- `build` from cpm.go (lines 331-380): return if already built; scan the
`inprocess` stack for a cycle; push the name; build all non-weak dependency
edges (with their post commands); run the package's own build commands;
pop the stack and set the built flag. -/
def build (reg : Registry) (ctx : ExecCtx) : Nat → PacUnit → BSt → BRes
  | 0, _, st => .stuck st
  | fuel + 1, p, st =>
    if p.name ∈ st.built then .ok st
    else if p.name ∈ st.inprocess then .fatal (.cycle p.name st.inprocess) st
    else
      let st1 : BSt := { st with inprocess := st.inprocess ++ [p.name] }
      match buildDeps reg ctx fuel p.depends st1 with
      | .ok st2 =>
        if p.build.length ≠ 0 then
          let r := exec_commands ctx p.build
          let st3 : BSt := { st2 with trace := st2.trace ++ r.2 }
          if r.1 ≠ 0 then .fatal (.cmdFailed r.1) st3
          else
            .ok { st3 with
                  inprocess := st3.inprocess.dropLast
                  built := p.name :: st3.built }
        else
          .ok { st2 with
                inprocess := st2.inprocess.dropLast
                built := p.name :: st2.built }
      | r => r

/-- The dependency loop of `build` (cpm.go lines 350-365): skip weak
(`fetchOnly`) edges; otherwise build the resolved target and then run the
edge's post commands, aborting on a non-zero exit status. -/
def buildDeps (reg : Registry) (ctx : ExecCtx) :
    Nat → List DependencyDescriptor → BSt → BRes
  | _, [], st => .ok st
  | 0, _ :: _, st => .stuck st
  | fuel + 1, d :: rest, st =>
    if ¬ d.fetchOnly then
      match reg d.name with
      | none => .fatal (.missingPack d.name) st
      | some q =>
        match build reg ctx fuel q st with
        | .ok st2 =>
          if d.post.length ≠ 0 then
            let r := exec_commands ctx d.post
            let st3 : BSt := { st2 with trace := st2.trace ++ r.2 }
            if r.1 ≠ 0 then .fatal (.cmdFailed r.1) st3
            else buildDeps reg ctx fuel rest st3
          else buildDeps reg ctx fuel rest st2
        | r => r
    else buildDeps reg ctx fuel rest st

end

/-- The filesystem state of one package directory, as inspected by `fetch`:
absent, present without a `.git` subdirectory, or present with one. -/
inductive DirState where
  | absent
  | presentNoGit
  | presentGit
deriving DecidableEq

/-- The content a `cpm.json` descriptor contributes when unmarshalled into an
already-registered package: its build commands and dependency edges (the
fields the other claims exercise; `name`/`git`/`branch`/`https` keep the
values the registering edge supplied). -/
structure PacDesc where
  build : List Command
  depends : List DependencyDescriptor
deriving DecidableEq

/-- Configuration and oracles of the fetch phase: the development-tree root,
the `--proto` flag value, the `-l` and `-F` flags, the per-package directory
state, the descriptor loader and the process exit-code oracle. -/
structure FetchCtx where
  devroot : String
  proto : String
  localOnly : Bool
  force : Bool
  dirState : String → DirState
  desc : String → Option PacDesc
  exitCode : String → List String → Int

/-- `filepath.Join` restricted to the non-empty, already-clean components the
program joins. -/
def pjoin (a b : String) : String := a ++ "/" ++ b

/-- URI selection of `git_clone` (cpm.go lines 446-461): prefer the location
matching the `--proto` flag, falling back to the other transport when the
preferred one is unset; `""` means neither is set. -/
def clone_uri (proto git https : String) : String :=
  if proto = "https" then
    if https = "" then git else https
  else
    if git = "" then https else git

/-- The argument vector `git_clone` builds (cpm.go lines 466-472): the bound
branch is requested directly via `-b`. -/
def clone_args (branch uri fullpath : String) : List String :=
  ["clone"] ++ (if branch ≠ "" then ["-b", branch] else []) ++ [uri, fullpath]

/-- The argument vector `git_switch` builds (cpm.go lines 497-504): `-f`
exactly when the `-F` force flag is set. -/
def switch_args (force : Bool) (branch : String) : List String :=
  ["switch"] ++ (if force then ["-f"] else []) ++ [branch]

/-- `git_clone` from cpm.go: choose the URI by protocol preference, fail
fatally when no location is set, then run `git clone` (fatal on non-zero
exit). -/
def git_clone (fc : FetchCtx) (p : PacUnit) : Except FatalErr (List Ev) :=
  let fullpath := pjoin fc.devroot p.name
  let uri := clone_uri fc.proto p.git p.https
  if uri = "" then .error (.missingLocation p.name)
  else
    let args := clone_args p.branch uri fullpath
    if fc.exitCode "git" args ≠ 0 then
      .error (.gitFailed p.name args (fc.exitCode "git" args))
    else .ok [.git args]

/-- `git_switch` from cpm.go: `git switch [-f] <branch>`, fatal on non-zero
exit. -/
def git_switch (fc : FetchCtx) (name branch : String) : Except FatalErr (List Ev) :=
  let args := switch_args fc.force branch
  if fc.exitCode "git" args ≠ 0 then
    .error (.gitFailed name args (fc.exitCode "git" args))
  else .ok [.git args]

/-- `git_pull` from cpm.go: if a branch is bound, first `git switch` to it,
then `git pull origin <branch>` (the branch argument is passed even when
empty, exactly as the Go code appends it), fatal on non-zero exit. -/
def git_pull (fc : FetchCtx) (name branch : String) : Except FatalErr (List Ev) :=
  match (if branch.length ≠ 0 then git_switch fc name branch else .ok []) with
  | .error e => .error e
  | .ok evs =>
    let args := ["pull", "origin", branch]
    if fc.exitCode "git" args ≠ 0 then
      .error (.gitFailed name args (fc.exitCode "git" args))
    else .ok (evs ++ [.git args])

/-- `fetch` from cpm.go (lines 217-236): clone into a freshly created
directory when the package directory is absent, clone in place when it exists
without version-control metadata, and otherwise pull (switching first when a
branch is bound) — never re-cloning. -/
def fetch (fc : FetchCtx) (p : PacUnit) : Except FatalErr (List Ev) :=
  match fc.dirState p.name with
  | .absent =>
    match git_clone fc p with
    | .error e => .error e
    | .ok evs => .ok (.mkdir (pjoin fc.devroot p.name) :: evs)
  | .presentNoGit => git_clone fc p
  | .presentGit => git_pull fc p.name p.branch

/-- Fetch-phase state: the registry (`all_packs`, in registration order) and
the trace of effects so far. -/
structure FSt where
  packs : List PacUnit
  events : List Ev
deriving DecidableEq

/-- Outcome of the fetch phase: normal return or a `log.Fatalf` abort
carrying the state at the abort. -/
inductive FRes where
  | ok (st : FSt)
  | fatal (e : FatalErr) (st : FSt)
deriving DecidableEq

/-- Replace the registry entry with the given name (models mutating the
shared `*PacUnit` that both `all_packs` and the caller hold). -/
def setPack (l : List PacUnit) (p : PacUnit) : List PacUnit :=
  l.map (fun q => if q.name = p.name then p else q)

/-- The sentinel cpm.go substitutes for an unspecified branch in the branch
conflict message. -/
def orHEAD (b : String) : String := if b.length = 0 then "HEAD" else b

/-- The symlink loop of `fetch_all` (cpm.go lines 313-326): for an edge with
modules, one link per module named after the module; otherwise a single link
named after the dependency, pointing at the dependency's own include
namespace. -/
def dep_links (devroot cwd : String) : List DependencyDescriptor → List Ev
  | [] => []
  | dep :: rest =>
    (if dep.modules.length ≠ 0 then
      dep.modules.map (fun m =>
        Ev.link cwd (pjoin (pjoin (pjoin devroot dep.name) "include") m) m)
    else
      [Ev.link cwd (pjoin (pjoin (pjoin devroot dep.name) "include") dep.name)
        dep.name])
    ++ dep_links devroot cwd rest

mutual

/-- `fetch_all` from cpm.go (lines 239-328): fetch the package (or verify it
exists in local-only mode), link the shared `lib` directory, load the local
descriptor if present, resolve every dependency edge through the registry
(recursively fetching new ones), then compose the include namespace. -/
def fetch_all (fc : FetchCtx) : Nat → PacUnit → FSt → FRes
  | 0, _, st => .fatal .outOfFuel st
  | fuel + 1, p, st =>
    let step1 : Except FatalErr (List Ev) :=
      if ¬ fc.localOnly then fetch fc p
      else if fc.dirState p.name = .absent then .error (.localMissing p.name)
      else .ok []
    match step1 with
    | .error e => .fatal e st
    | .ok evs1 =>
      let pacdir := pjoin fc.devroot p.name
      let evs2 := evs1 ++ [.link pacdir (pjoin fc.devroot "lib") "lib"]
      let p' :=
        match fc.desc p.name with
        | none => p
        | some dsc => { p with build := dsc.build, depends := dsc.depends }
      let st1 : FSt := { packs := setPack st.packs p', events := st.events ++ evs2 }
      if p'.depends.length ≠ 0 then
        match resolve_deps fc fuel p'.depends st1 with
        | .fatal e st' => .fatal e st'
        | .ok st2 =>
          let incdir := pjoin pacdir "include"
          .ok { st2 with events := st2.events ++ dep_links fc.devroot incdir p'.depends }
      else .ok st1

/-- The dependency-resolution loop of `fetch_all` (cpm.go lines 266-305):
look each edge's target up in the registry; a hit with a different branch is
a fatal configuration error naming both branches (`HEAD` standing in for an
unspecified one); a miss registers a bare package carrying the edge's
location and branch and recursively fetches it. -/
def resolve_deps (fc : FetchCtx) : Nat → List DependencyDescriptor → FSt → FRes
  | _, [], st => .ok st
  | 0, _ :: _, st => .fatal .outOfFuel st
  | fuel + 1, d :: rest, st =>
    match st.packs.find? (fun v => v.name = d.name) with
    | some v =>
      if v.branch ≠ d.branch then
        .fatal (.branchConflict v.name (orHEAD v.branch) (orHEAD d.branch)) st
      else resolve_deps fc fuel rest st
    | none =>
      let q : PacUnit :=
        { name := d.name, git := d.git, branch := d.branch, https := d.https,
          build := [], depends := [] }
      match fetch_all fc fuel q { st with packs := st.packs ++ [q] } with
      | .fatal e st' => .fatal e st'
      | .ok st2 => resolve_deps fc fuel rest st2

end

/-- Outcome of a whole run (`main` after flag parsing): success with the
fetch state and build state, or a fatal abort carrying every event that
happened before it. -/
inductive RunRes where
  | ok (fst : FSt) (bst : BSt)
  | fatal (e : FatalErr) (evs : List Ev)
deriving DecidableEq

/-- The error a run ended with, if any. -/
def RunRes.err : RunRes → Option FatalErr
  | .ok _ _ => none
  | .fatal e _ => some e

/-- All events of a run, fetch phase first, then build phase. -/
def RunRes.events : RunRes → List Ev
  | .ok fst bst => fst.events ++ bst.trace
  | .fatal _ evs => evs

/-- The core of `main` (cpm.go lines 172-211): register the root package,
run the fetch phase, and unless `-f` was given run the build phase on the
root (whose descriptor-loaded state is looked up in the registry).  Any
`log.Fatalf` terminates the run with the events performed so far. -/
def cpm_run (fc : FetchCtx) (ctx : ExecCtx) (fetchOnly : Bool) (fuel : Nat)
    (root : PacUnit) : RunRes :=
  match fetch_all fc fuel root { packs := [root], events := [] } with
  | .fatal e st => .fatal e st.events
  | .ok st =>
    if fetchOnly then .ok st { built := [], inprocess := [], trace := [] }
    else
      match mkReg st.packs root.name with
      | none => .fatal (.missingPack root.name) st.events
      | some r =>
        match build (mkReg st.packs) ctx fuel r
            { built := [], inprocess := [], trace := [] } with
        | .ok bst => .ok st bst
        | .fatal e bst => .fatal e (st.events ++ bst.trace)
        | .stuck bst => .fatal .outOfFuel (st.events ++ bst.trace)

/-- A filesystem node for the `Symlink` model: a regular file or directory
carrying its identity (what `os.SameFile` compares, e.g. device/inode), or a
symbolic link carrying its destination path. -/
inductive FsNode where
  | file (id : Nat)
  | dir (id : Nat)
  | symlink (dest : String)
deriving DecidableEq

/-- Whether `os.Lstat(..).Mode() & fs.ModeSymlink` is non-zero. -/
def FsNode.isLink : FsNode → Bool
  | .symlink _ => true
  | _ => false

/-- A filesystem: a finite map from path to node (paths as the program
passes them; `lookupFs` is `os.Lstat`). -/
abbrev Fs : Type := List (String × FsNode)

/-- `os.Lstat`: the node at a path, without following a final symlink. -/
def lookupFs (fs : Fs) (p : String) : Option FsNode :=
  (fs.find? (fun e => e.1 = p)).map (fun e => e.2)

/-- `os.Stat`: resolve a path to the identity of the file it denotes,
following symlink chains (with fuel; a dangling or cyclic chain yields
`none`, as `os.Stat` yields an error). -/
def statId (fs : Fs) : Nat → String → Option Nat
  | 0, _ => none
  | fuel + 1, p =>
    match lookupFs fs p with
    | some (.file i) => some i
    | some (.dir i) => some i
    | some (.symlink d) => statId fs fuel d
    | none => none

/-- Fuel that always suffices to resolve an acyclic symlink chain. -/
def resolveFuel (fs : Fs) : Nat := fs.length + 1

/-- `Symlink` from cpm.go (lines 529-551): create the link when the name does
not exist; otherwise the existing entry must be a symbolic link and
`os.SameFile(os.Stat(link), os.Stat(target))` must hold (identity, not
path-string, comparison), in which case nothing is modified; in every other
case `log.Fatalf` aborts (modelled as `.error`): an existing real file or
directory is never overwritten. -/
def Symlink (fs : Fs) (target link : String) : Except FatalErr Fs :=
  match lookupFs fs link with
  | none => .ok ((link, .symlink target) :: fs)
  | some n =>
    if ¬ n.isLink then .error (.linkCollision link target)
    else
      match statId fs (resolveFuel fs) link, statId fs (resolveFuel fs) target with
      | some i, some j => if i = j then .ok fs else .error (.linkCollision link target)
      | _, _ => .error (.linkCollision link target)

/-! Concrete run configurations used to exercise the model on the scenarios
the specification's testable properties describe. -/

/-- Oracles for a Linux host on which every spawned process succeeds. -/
def osLinux : ExecCtx := ⟨"linux", id, fun _ _ => 0⟩

/-- Descriptor loader backed by an association list. -/
def descMap (l : List (String × PacDesc)) : String → Option PacDesc :=
  fun n => (l.find? (fun e => e.1 = n)).map (fun e => e.2)

/-- Fetch configuration: development root `/r`, git protocol, no local-only
or force mode, every package directory initially absent, every git command
succeeding, descriptors from the given list. -/
def fcOf (dl : List (String × PacDesc)) : FetchCtx :=
  { devroot := "/r", proto := "git", localOnly := false, force := false,
    dirState := fun _ => .absent, desc := descMap dl, exitCode := fun _ _ => 0 }

/-- A plain non-weak dependency edge on package `n` with a git location. -/
def edge (n : String) : DependencyDescriptor :=
  { name := n, git := "g" ++ n, branch := "", https := "", modules := [],
    fetchOnly := false, post := [] }

/-- A bare root package record, as `main` registers it before fetching. -/
def rootP (n : String) : PacUnit :=
  { name := n, git := "gR", branch := "", https := "", build := [], depends := [] }

/-- An untagged command with no arguments. -/
def cmd1 (c : String) : Command := { os := "", cmd := c, args := [] }

/-- Cycle scenario: `A` and `B` depend on each other through non-weak edges,
and both declare build commands. -/
def dlCycle : List (String × PacDesc) :=
  [("A", ⟨[cmd1 "buildA"], [edge "B"]⟩), ("B", ⟨[cmd1 "buildB"], [edge "A"]⟩)]

/-- Branch conflict scenario: the root reaches `X` once requesting branch
`main` and again requesting branch `dev`. -/
def dlConflict : List (String × PacDesc) :=
  [("R", ⟨[cmd1 "buildR"],
    [{ edge "X" with branch := "main" }, { edge "X" with branch := "dev" }]⟩)]

/-- Weak dependency scenario: `A` depends on `B` with `fetchOnly`, and `B`
declares a build command. -/
def dlWeak : List (String × PacDesc) :=
  [("A", ⟨[cmd1 "buildA"], [{ edge "B" with fetchOnly := true }]⟩),
   ("B", ⟨[cmd1 "buildB"], []⟩)]

/-- Fail-fast scenario: the root builds `P` then `Q`; `P` has three build
commands and the root's edge to `P` carries a post command. -/
def dlFail : List (String × PacDesc) :=
  [("R", ⟨[cmd1 "buildR"], [{ edge "P" with post := [cmd1 "postP"] }, edge "Q"]⟩),
   ("P", ⟨[cmd1 "p1", cmd1 "p2", cmd1 "p3"], []⟩),
   ("Q", ⟨[cmd1 "q1"], []⟩)]

/-- Oracles for a Linux host on which exactly the command `p2` fails. -/
def osFailP2 : ExecCtx := ⟨"linux", id, fun c _ => if c = "p2" then 1 else 0⟩

/-- Diamond scenario: the root depends on `A` and `B`, both of which depend
on `C`. -/
def dlDiamond : List (String × PacDesc) :=
  [("R", ⟨[cmd1 "buildR"], [edge "A", edge "B"]⟩),
   ("A", ⟨[cmd1 "buildA"], [edge "C"]⟩),
   ("B", ⟨[cmd1 "buildB"], [edge "C"]⟩),
   ("C", ⟨[cmd1 "buildC"], []⟩)]

/-- Module scenario: `A` depends on `B` exposing only the module `serial`. -/
def dlSerial : List (String × PacDesc) :=
  [("A", ⟨[], [{ edge "B" with modules := ["serial"] }]⟩), ("B", ⟨[], []⟩)]

/-- The four commands of the OS-dispatch scenario: tagged `windows`, tagged
`linux`, untagged, and tagged `windows linux`. -/
def dispatchCmds : List Command :=
  [{ os := "windows", cmd := "w", args := [] },
   { os := "linux", cmd := "l", args := [] },
   { os := "", cmd := "u", args := [] },
   { os := "windows linux", cmd := "wl", args := [] }]

/-- Oracles for a Windows host on which every spawned process succeeds. -/
def osWindows : ExecCtx := ⟨"windows", id, fun _ _ => 0⟩

/-- Whether an event is a symlink creation inside the given directory. -/
def Ev.isLinkIn (dir : String) : Ev → Bool
  | .link c _ _ => c == dir
  | _ => false

/-- The links the specification promises for one dependency edge (written
from the spec's words, for comparison with the code-derived `dep_links`):
an edge without modules yields exactly one link named after the dependency
pointing at `<devroot>/<depName>/include/<depName>`; an edge with modules
yields exactly one link per module pointing at
`<devroot>/<depName>/include/<module>`, and nothing else. -/
def spec_namespace_links (devroot cwd : String) (d : DependencyDescriptor) :
    List Ev :=
  if d.modules = [] then
    [Ev.link cwd (pjoin (pjoin (pjoin devroot d.name) "include") d.name) d.name]
  else
    d.modules.map (fun m =>
      Ev.link cwd (pjoin (pjoin (pjoin devroot d.name) "include") m) m)

/-- Name-level reachability through non-weak dependency edges, edge targets
resolved through the registry (the build graph of the specification). -/
inductive ReachName (reg : Registry) : String → String → Prop
  | step {n : String} {p : PacUnit} {d : DependencyDescriptor} :
      reg n = some p → d ∈ p.depends → d.fetchOnly = false →
      ReachName reg n d.name
  | trans {n m k : String} : ReachName reg n m → ReachName reg m k →
      ReachName reg n k

/-- Closure of the built set: every package marked built has every non-weak
dependency reachable from it marked built as well. -/
def GoodB (reg : Registry) (st : BSt) : Prop :=
  ∀ n m, n ∈ st.built → ReachName reg n m → m ∈ st.built

/-! Lemmas about the command-dispatch helper. -/

/-- When every spawned process exits zero, `runTok` runs the command once per
applicable token, in order. -/
theorem runTok_zero (ctx : ExecCtx) (c : Command)
    (h0 : ∀ cmd args, ctx.exitCode cmd args = 0) (toks : List String) :
    runTok ctx c toks
      = (0, (toks.filter (fun t => decide (t = "any" ∨ t = ctx.goos))).map
          (fun _ => evOf ctx c)) := by
  induction toks with
  | nil => rfl
  | cons t rest ih =>
    simp only [runTok, h0, ne_eq, not_true_eq_false, if_false, ih, List.filter_cons]
    split
    · simp_all [evOf]
    · simp_all

/-- When every spawned process exits zero, `exec_commands` executes, in
declaration order, each command once per applicable OS token. -/
theorem exec_commands_zero (ctx : ExecCtx) (h0 : ∀ cmd args, ctx.exitCode cmd args = 0)
    (cmds : List Command) :
    exec_commands ctx cmds
      = (0, (cmds.map (fun c => (applicable ctx.goos c).map (fun _ => evOf ctx c))).flatten) := by
  induction cmds with
  | nil => rfl
  | cons c rest ih =>
    simp only [exec_commands, runTok_zero ctx c h0, applicable, ih, ne_eq,
      not_true_eq_false, if_false, List.map_cons, List.flatten_cons]

/-- The first command of a list stopping the iteration when it fails. -/
theorem exec_commands_cons_fail (ctx : ExecCtx) (c : Command)
    (rest : List Command)
    (h : (runTok ctx c (fields (if c.os = "" then "any" else c.os))).1 ≠ 0) :
    exec_commands ctx (c :: rest)
      = runTok ctx c (fields (if c.os = "" then "any" else c.os)) := by
  simp only [exec_commands, if_pos h]

/-- C4: `exec_commands` processes the command list in declaration order; each
command's OS pattern is split on whitespace and the command runs once per
token equal to the current OS identifier or `"any"`, with an empty pattern
treated as `"any"` and environment references expanded in each argument
(first conjunct, for runs in which every command succeeds); consequently on a
Linux run only the `linux`-tagged and untagged commands of the scenario
execute, in declared order (second conjunct), and a command tagged
`"windows linux"` executes on either OS (covered by both concrete
conjuncts). -/
theorem os_dispatch_spec :
    (∀ (ctx : ExecCtx) (cmds : List Command),
      (∀ cmd args, ctx.exitCode cmd args = 0) →
      exec_commands ctx cmds
        = (0, (cmds.map (fun c => (applicable ctx.goos c).map (fun _ => evOf ctx c))).flatten))
    ∧ exec_commands osLinux dispatchCmds
        = (0, [.exec "l" [], .exec "u" [], .exec "wl" []])
    ∧ exec_commands osWindows dispatchCmds
        = (0, [.exec "w" [], .exec "u" [], .exec "wl" []]) := by
  refine ⟨fun ctx cmds h0 => exec_commands_zero ctx h0 cmds, by decide, by decide⟩

/-- Witness for the quantified conjunct of `os_dispatch_spec`, at the
concrete dispatch scenario on the Linux oracles. -/
theorem os_dispatch_spec_witness :
    exec_commands osLinux dispatchCmds
      = (0, (dispatchCmds.map
          (fun c => (applicable osLinux.goos c).map (fun _ => evOf osLinux c))).flatten) :=
  os_dispatch_spec.1 osLinux dispatchCmds (fun _ _ => rfl)

/-- A character list of whitespace only yields no fields. -/
theorem fieldsAux_ws (l : List Char) (h : ∀ c ∈ l, c.isWhitespace) :
    fieldsAux [] l = [] := by
  induction l with
  | nil => rfl
  | cons c cs ih =>
    have hc : c.isWhitespace := h c (List.mem_cons_self c cs)
    simp only [fieldsAux, hc, if_true, if_pos rfl]
    exact ih (fun x hx => h x (List.mem_cons_of_mem c hx))

/-- C10: a command whose OS pattern is a non-empty, whitespace-only string is
executed zero times on every operating system — the pattern is not replaced
by `"any"` (it is non-empty), splitting it yields no tokens, and the command
is silently skipped: dropping it from the list leaves the result of
`exec_commands` unchanged. -/
theorem ws_pattern_skipped_spec (ctx : ExecCtx) (c : Command)
    (rest : List Command) (hne : c.os ≠ "")
    (hws : ∀ ch ∈ c.os.data, ch.isWhitespace) :
    fields c.os = [] ∧ exec_commands ctx (c :: rest) = exec_commands ctx rest := by
  have hf : fields c.os = [] := by
    simp only [fields, fieldsAux_ws c.os.data hws, List.map_nil]
  refine ⟨hf, ?_⟩
  simp only [exec_commands, if_neg hne, hf, runTok, ne_eq, not_true_eq_false]
  simp

/-- Witness for `ws_pattern_skipped_spec`: the pattern `" "` on a Linux host. -/
theorem ws_pattern_skipped_spec_witness :
    fields " " = [] ∧
      exec_commands osLinux ({ os := " ", cmd := "x", args := [] } :: [cmd1 "y"])
        = exec_commands osLinux [cmd1 "y"] :=
  ws_pattern_skipped_spec osLinux { os := " ", cmd := "x", args := [] }
    [cmd1 "y"] (by decide) (by decide)

/-- C5: any command that exits non-zero aborts the run immediately: the
remaining commands of the same list are not attempted (first conjunct, at the
`exec_commands` level), and in the concrete scenario â where `P`'s second
build command fails â the whole run ends with a fatal error (the modelled
non-zero process exit) and the only commands ever executed are `p1` and `p2`:
`P`'s third command, the edge's post command, the sibling `Q`'s build and the
dependent root's build never execute. -/
theorem fail_fast_spec :
    (∀ (ctx : ExecCtx) (c : Command) (rest : List Command),
      (runTok ctx c (fields (if c.os = "" then "any" else c.os))).1 ≠ 0 →
      exec_commands ctx (c :: rest)
        = runTok ctx c (fields (if c.os = "" then "any" else c.os)))
    ∧ (cpm_run (fcOf dlFail) osFailP2 false 20 (rootP "R")).err
        = some (.cmdFailed 1)
    ∧ ((cpm_run (fcOf dlFail) osFailP2 false 20 (rootP "R")).events.filter Ev.isExec)
        = [.exec "p1" [], .exec "p2" []] := by
  refine ⟨exec_commands_cons_fail, by decide, by decide⟩

/-- Witness for the quantified conjunct of `fail_fast_spec`: the failing
command `p2` followed by `p3`, of which only `p2` runs. -/
theorem fail_fast_spec_witness :
    exec_commands osFailP2 (cmd1 "p2" :: [cmd1 "p3"])
      = runTok osFailP2 (cmd1 "p2")
          (fields (if (cmd1 "p2").os = "" then "any" else (cmd1 "p2").os)) :=
  fail_fast_spec.1 osFailP2 (cmd1 "p2") [cmd1 "p3"] (by decide)

/-- C1: entering `build` for a package whose name is on the in-progress stack
(and whose built flag is not set â an invariant of every reachable state,
since the flag is only set after the name is popped) aborts fatally,
reporting the full chain and leaving the state untouched: the check precedes
any recursion into the dependencies.  In the concrete `A â B â A` scenario
(both edges non-weak) the run aborts naming the chain `A, B` with no build
command of any package ever executed. -/
theorem cycle_abort_spec :
    (∀ (reg : Registry) (ctx : ExecCtx) (fuel : Nat) (p : PacUnit) (st : BSt),
      p.name ∉ st.built → p.name ∈ st.inprocess →
      build reg ctx (fuel + 1) p st = .fatal (.cycle p.name st.inprocess) st)
    ∧ (cpm_run (fcOf dlCycle) osLinux false 20 (rootP "A")).err
        = some (.cycle "A" ["A", "B"])
    ∧ ((cpm_run (fcOf dlCycle) osLinux false 20 (rootP "A")).events.filter Ev.isExec)
        = [] := by
  refine ⟨fun reg ctx fuel p st h1 h2 => ?_, by decide, by decide⟩
  simp only [build, if_neg h1, if_pos h2]

/-- Witness for the quantified conjunct of `cycle_abort_spec`: a package
whose name already sits on the in-progress stack. -/
theorem cycle_abort_spec_witness :
    build (mkReg []) osLinux 5 (rootP "A")
        { built := [], inprocess := ["A", "B"], trace := [] }
      = .fatal (.cycle "A" ["A", "B"])
          { built := [], inprocess := ["A", "B"], trace := [] } :=
  cycle_abort_spec.1 (mkReg []) osLinux 4 (rootP "A")
    { built := [], inprocess := ["A", "B"], trace := [] } (by decide) (by decide)

/-- C2: a dependency edge whose target is already registered with a
different branch is a fatal configuration error naming both branches, with
`HEAD` standing in for an unspecified one (first conjunct); in the concrete
scenario where `X` is reached once requesting `main` and once requesting
`dev`, the run fails with that error and no build step ever executes. -/
theorem branch_conflict_spec :
    (∀ (fc : FetchCtx) (fuel : Nat) (d : DependencyDescriptor)
      (rest : List DependencyDescriptor) (st : FSt) (v : PacUnit),
      st.packs.find? (fun q => q.name = d.name) = some v →
      v.branch ≠ d.branch →
      resolve_deps fc (fuel + 1) (d :: rest) st
        = .fatal (.branchConflict v.name (orHEAD v.branch) (orHEAD d.branch)) st)
    ∧ (cpm_run (fcOf dlConflict) osLinux false 20 (rootP "R")).err
        = some (.branchConflict "X" "main" "dev")
    ∧ ((cpm_run (fcOf dlConflict) osLinux false 20 (rootP "R")).events.filter Ev.isExec)
        = [] := by
  refine ⟨fun fc fuel d rest st v hf hb => ?_, by decide, by decide⟩
  simp only [resolve_deps, hf, if_pos hb]

/-- Witness for the quantified conjunct of `branch_conflict_spec`: a registry
holding `X` at branch `main` meeting an edge requesting `dev`. -/
theorem branch_conflict_spec_witness :
    resolve_deps (fcOf []) 5 [{ edge "X" with branch := "dev" }]
        { packs := [{ rootP "X" with branch := "main" }], events := [] }
      = .fatal (.branchConflict "X" "main" "dev")
          { packs := [{ rootP "X" with branch := "main" }], events := [] } :=
  branch_conflict_spec.1 (fcOf []) 4 { edge "X" with branch := "dev" } []
    { packs := [{ rootP "X" with branch := "main" }], events := [] }
    { rootP "X" with branch := "main" } (by decide) (by decide)

/-- C3: a `fetchOnly` edge is skipped by the build recursion â the dependency
loop treats it exactly as if it were absent (first conjunct) â while in the
concrete scenario `B`'s tree is still cloned and its namespace linked into
`A`'s include directory during fetch, yet the only build command ever
executed is `A`'s own: `B`'s build command is never invoked. -/
theorem weak_dep_spec :
    (∀ (reg : Registry) (ctx : ExecCtx) (fuel : Nat) (d : DependencyDescriptor)
      (rest : List DependencyDescriptor) (st : BSt),
      d.fetchOnly = true →
      buildDeps reg ctx (fuel + 1) (d :: rest) st = buildDeps reg ctx fuel rest st)
    ∧ (cpm_run (fcOf dlWeak) osLinux false 20 (rootP "A")).err = none
    ∧ ((cpm_run (fcOf dlWeak) osLinux false 20 (rootP "A")).events.filter Ev.isExec)
        = [.exec "buildA" []]
    ∧ Ev.git ["clone", "gB", "/r/B"]
        ∈ (cpm_run (fcOf dlWeak) osLinux false 20 (rootP "A")).events
    ∧ Ev.link "/r/A/include" "/r/B/include/B" "B"
        ∈ (cpm_run (fcOf dlWeak) osLinux false 20 (rootP "A")).events := by
  refine ⟨fun reg ctx fuel d rest st h => ?_, by decide, by decide, by decide, by decide⟩
  simp [buildDeps, h]

/-- Witness for the quantified conjunct of `weak_dep_spec`: a weak edge on a
package with a build command is skipped outright. -/
theorem weak_dep_spec_witness :
    buildDeps (mkReg []) osLinux 5 [{ edge "B" with fetchOnly := true }]
        { built := [], inprocess := [], trace := [] }
      = buildDeps (mkReg []) osLinux 4 []
          { built := [], inprocess := [], trace := [] } :=
  weak_dep_spec.1 (mkReg []) osLinux 4 { edge "B" with fetchOnly := true } []
    { built := [], inprocess := [], trace := [] } (by decide)

/-- C8: the symlink loop of `fetch_all` creates, per dependency edge, exactly
the links the specification describes â one whole-package link for an edge
without modules, one link per listed module otherwise, with no whole-package
link and none for unlisted modules (first conjunct, a refinement of the loop
against the spec-worded `spec_namespace_links`); in the concrete scenario
with `modules = ["serial"]` the links created in `A`'s include directory are
exactly the single `serial` link pointing at the dependency's
`include/serial` subfolder. -/
theorem namespace_links_spec :
    (∀ (devroot cwd : String) (deps : List DependencyDescriptor),
      dep_links devroot cwd deps
        = (deps.map (spec_namespace_links devroot cwd)).flatten)
    ∧ ((cpm_run (fcOf dlSerial) osLinux true 20 (rootP "A")).events.filter
        (Ev.isLinkIn "/r/A/include"))
        = [Ev.link "/r/A/include" "/r/B/include/serial" "serial"] := by
  refine ⟨fun devroot cwd deps => ?_, by decide⟩
  induction deps with
  | nil => rfl
  | cons d rest ih =>
    simp only [dep_links, List.map_cons, List.flatten_cons, ih,
      spec_namespace_links]
    cases h : d.modules with
    | nil => simp [h]
    | cons m ms => simp [h]

/-- Witness for the quantified conjunct of `namespace_links_spec`, at the
concrete edge list of the module scenario. -/
theorem namespace_links_spec_witness :
    dep_links "/r" "/r/A/include" [{ edge "B" with modules := ["serial"] }]
      = ([{ edge "B" with modules := ["serial"] }].map
          (spec_namespace_links "/r" "/r/A/include")).flatten :=
  namespace_links_spec.1 "/r" "/r/A/include"
    [{ edge "B" with modules := ["serial"] }]


/-- Resolution is monotone in fuel. -/
theorem statId_mono (fs : Fs) :
    ∀ (f f' : Nat) (p : String) (j : Nat), f ≤ f' →
      statId fs f p = some j → statId fs f' p = some j := by
  intro f
  induction f with
  | zero => intro f' p j _ h; simp [statId] at h
  | succ f ih =>
    intro f' p j hle h
    obtain ⟨f'', rfl⟩ : ∃ f'', f' = f'' + 1 := ⟨f' - 1, by omega⟩
    simp only [statId] at h ⊢
    cases hl : lookupFs fs p with
    | none => rw [hl] at h; exact absurd h (by simp)
    | some n =>
      rw [hl] at h
      cases n with
      | file i => exact h
      | dir i => exact h
      | symlink d => exact ih f'' d j (by omega) h

/-- Looking a different path up is unaffected by a new head entry. -/
theorem lookupFs_cons_ne (fs : Fs) (link q : String) (node : FsNode)
    (h : q ≠ link) :
    lookupFs ((link, node) :: fs) q = lookupFs fs q := by
  simp only [lookupFs, List.find?]
  have hd : (decide ((link, node).1 = q)) = false := by
    simp only [decide_eq_false_iff_not]
    exact fun he => h he.symm
  rw [hd]

/-- Adding an entry at a path that had none preserves successful
resolutions. -/
theorem statId_cons_of_none (fs : Fs) (link : String) (node : FsNode)
    (hnone : lookupFs fs link = none) :
    ∀ (f : Nat) (p : String) (j : Nat), statId fs f p = some j →
      statId ((link, node) :: fs) f p = some j := by
  intro f
  induction f with
  | zero => intro p j h; simp [statId] at h
  | succ f ih =>
    intro p j h
    simp only [statId] at h ⊢
    cases hl : lookupFs fs p with
    | none => rw [hl] at h; exact absurd h (by simp)
    | some n =>
      rw [hl] at h
      have hpl : p ≠ link := by
        intro he; rw [he, hnone] at hl; exact absurd hl (by simp)
      rw [lookupFs_cons_ne fs link p node hpl, hl]
      cases n with
      | file i => exact h
      | dir i => exact h
      | symlink d => exact ih d j h

/-- C9: the `Symlink` contract.  (1) When the link name does not exist the
link is created.  (2) When the name exists, the call succeeds — leaving the
filesystem unchanged — exactly when the existing entry is a symbolic link and
`os.Stat` resolves link and target to the same file identity (`os.SameFile`,
identity rather than path-string comparison).  (3) An existing entry that is
not a symlink (a real file or directory) is a fatal collision, never
overwritten.  (4) Re-running after a successful creation succeeds again
without modification, provided the target resolves and differs from the link
name, so namespace composition is safe to re-run.  (5) Concretely, a link
whose stored destination string `"b"` differs textually from the intended
target `"a/x"` is still accepted because both resolve to the same file. -/
theorem symlink_contract_spec :
    (∀ (fs : Fs) (target link : String), lookupFs fs link = none →
      Symlink fs target link = .ok ((link, .symlink target) :: fs))
    ∧ (∀ (fs : Fs) (target link : String) (n : FsNode),
      lookupFs fs link = some n →
      (Symlink fs target link = .ok fs ↔
        (n.isLink = true ∧ ∃ i, statId fs (resolveFuel fs) link = some i
          ∧ statId fs (resolveFuel fs) target = some i)))
    ∧ (∀ (fs : Fs) (target link : String) (n : FsNode),
      lookupFs fs link = some n → n.isLink = false →
      Symlink fs target link = .error (.linkCollision link target))
    ∧ (∀ (fs : Fs) (target link : String) (j : Nat),
      lookupFs fs link = none → target ≠ link →
      statId fs (resolveFuel fs) target = some j →
      Symlink ((link, .symlink target) :: fs) target link
        = .ok ((link, .symlink target) :: fs))
    ∧ Symlink [("a/x", .file 5), ("b", .symlink "a/x"), ("l", .symlink "b")]
        "a/x" "l"
        = .ok [("a/x", .file 5), ("b", .symlink "a/x"), ("l", .symlink "b")] := by
  refine ⟨fun fs target link h => by simp [Symlink, h], ?_, ?_, ?_, by rfl⟩
  · intro fs target link n h
    constructor
    · intro hok
      simp only [Symlink, h] at hok
      split at hok
      · exact absurd hok (by simp)
      · rename_i hnl
        split at hok
        · rename_i i j heq1 heq2
          split at hok
          · rename_i hij
            subst hij
            exact ⟨by simpa using hnl, i, heq1, heq2⟩
          · exact absurd hok (by simp)
        · exact absurd hok (by simp)
    · rintro ⟨hl, i, hsl, hst⟩
      simp [Symlink, h, hl, hsl, hst]
  · intro fs target link n h hnl
    simp [Symlink, h, hnl]
  · intro fs target link j hnone hne hst
    have hlook : lookupFs ((link, FsNode.symlink target) :: fs) link
        = some (.symlink target) := by
      simp [lookupFs, List.find?]
    have hgrow : resolveFuel ((link, FsNode.symlink target) :: fs)
        = resolveFuel fs + 1 := by
      simp [resolveFuel, List.length_cons]
    have htgt : statId ((link, FsNode.symlink target) :: fs) (resolveFuel fs)
        target = some j := statId_cons_of_none fs link _ hnone _ target j hst
    have hstep : statId ((link, FsNode.symlink target) :: fs)
        (resolveFuel ((link, FsNode.symlink target) :: fs)) link = some j := by
      rw [hgrow]
      simp only [statId, hlook]
      exact htgt
    have htgt' : statId ((link, FsNode.symlink target) :: fs)
        (resolveFuel ((link, FsNode.symlink target) :: fs)) target = some j := by
      refine statId_mono _ _ _ _ _ ?_ htgt
      rw [hgrow]
      omega
    simp [Symlink, hlook, FsNode.isLink, hstep, htgt']

/-- Witness for the quantified conjuncts of `symlink_contract_spec`: creating
a link at a fresh name in a one-file filesystem. -/
theorem symlink_contract_spec_witness :
    Symlink [("t", .file 1)] "t" "l" = .ok [("l", .symlink "t"), ("t", .file 1)] :=
  symlink_contract_spec.1 [("t", .file 1)] "t" "l" (by decide)

/-- A string of length zero is the empty string. -/
theorem str_len_zero (s : String) (h : s.length = 0) : s = "" := by
  cases s with
  | mk data =>
    cases data with
    | nil => rfl
    | cons a l => simp [String.length] at h

/-- Events of a successful `git_pull` are switch/pull invocations, never a
clone. -/
theorem git_pull_no_clone (fc : FetchCtx) (name branch : String)
    (evs : List Ev) (hok : git_pull fc name branch = .ok evs) :
    ∀ e ∈ evs, e.isClone = false := by
  intro e he
  rw [git_pull] at hok
  split at hok
  · exact absurd hok (by simp)
  · rename_i evs' heq
    simp only [ne_eq] at hok
    split at hok
    · exact absurd hok (by simp)
    · cases hok
      rcases List.mem_append.mp he with h1 | h1
      · split at heq
        · rw [git_switch] at heq
          split at heq
          · exact absurd heq (by simp)
          · cases heq
            simp only [List.mem_singleton] at h1
            subst h1
            simp only [Ev.isClone, switch_args]
            split <;> simp
        · cases heq
          simp at h1
      · simp only [List.mem_singleton] at h1
        subst h1
        simp [Ev.isClone]

/-- C7: the per-package fetch state machine, for runs outside local-only mode
in which git itself succeeds.  (1) Absent directory: create it and clone,
using the URI chosen by protocol preference.  (2) Directory present without
`.git`: clone in place, no directory creation.  (3) Neither transport set:
fatal, in both clone states.  (4) Directory present with `.git`: switch first
when a branch is bound, then pull that branch.  (5) A successful fetch of a
present-with-metadata directory never clones.  (6)/(7) Preferred transport
unset: fall back to the other one.  (8) A bound branch is requested directly
by the clone command via `-b`.  (9)/(10) The switch command forces with `-f`
exactly when the force flag is set. -/
theorem fetch_state_machine_spec :
    (∀ (fc : FetchCtx) (p : PacUnit), (∀ args, fc.exitCode "git" args = 0) →
      fc.dirState p.name = .absent → clone_uri fc.proto p.git p.https ≠ "" →
      fetch fc p = .ok [.mkdir (pjoin fc.devroot p.name),
        .git (clone_args p.branch (clone_uri fc.proto p.git p.https)
          (pjoin fc.devroot p.name))])
    ∧ (∀ (fc : FetchCtx) (p : PacUnit), (∀ args, fc.exitCode "git" args = 0) →
      fc.dirState p.name = .presentNoGit → clone_uri fc.proto p.git p.https ≠ "" →
      fetch fc p = .ok [.git (clone_args p.branch (clone_uri fc.proto p.git p.https)
        (pjoin fc.devroot p.name))])
    ∧ (∀ (fc : FetchCtx) (p : PacUnit),
      (fc.dirState p.name = .absent ∨ fc.dirState p.name = .presentNoGit) →
      clone_uri fc.proto p.git p.https = "" →
      fetch fc p = .error (.missingLocation p.name))
    ∧ (∀ (fc : FetchCtx) (p : PacUnit), (∀ args, fc.exitCode "git" args = 0) →
      fc.dirState p.name = .presentGit →
      fetch fc p = .ok ((if p.branch ≠ "" then [.git (switch_args fc.force p.branch)]
          else []) ++ [.git ["pull", "origin", p.branch]]))
    ∧ (∀ (fc : FetchCtx) (p : PacUnit) (evs : List Ev),
      fc.dirState p.name = .presentGit → fetch fc p = .ok evs →
      ∀ e ∈ evs, e.isClone = false)
    ∧ (∀ g, clone_uri "https" g "" = g)
    ∧ (∀ h, clone_uri "git" "" h = h)
    ∧ (∀ b uri path, b ≠ "" → clone_args b uri path = ["clone", "-b", b, uri, path])
    ∧ (∀ b, switch_args true b = ["switch", "-f", b])
      ∧ (∀ b, switch_args false b = ["switch", b]) := by
  have hclone : ∀ (fc : FetchCtx) (p : PacUnit),
      (∀ args, fc.exitCode "git" args = 0) →
      clone_uri fc.proto p.git p.https ≠ "" →
      git_clone fc p = .ok [.git (clone_args p.branch (clone_uri fc.proto p.git p.https)
        (pjoin fc.devroot p.name))] := by
    intro fc p hg hu
    simp only [git_clone, if_neg hu, hg, ne_eq, not_true_eq_false, if_false]
  have hpull : ∀ (fc : FetchCtx) (p : PacUnit),
      (∀ args, fc.exitCode "git" args = 0) →
      git_pull fc p.name p.branch
        = .ok ((if p.branch ≠ "" then [.git (switch_args fc.force p.branch)]
            else []) ++ [.git ["pull", "origin", p.branch]]) := by
    intro fc p hg
    by_cases hb : p.branch = ""
    · simp [git_pull, git_switch, hb, hg]
    · have hlen : p.branch.length ≠ 0 := fun h0 => hb (str_len_zero p.branch h0)
      simp [git_pull, git_switch, hlen, hg, hb]
  refine ⟨?_, ?_, ?_, ?_, ?_, ?_, ?_, ?_, ?_, ?_⟩
  · intro fc p hg hd hu
    simp [fetch, hd, hclone fc p hg hu]
  · intro fc p hg hd hu
    simp [fetch, hd, hclone fc p hg hu]
  · intro fc p hd hu
    rcases hd with hd | hd
    · simp [fetch, hd, git_clone, hu]
    · simp [fetch, hd, git_clone, hu]
  · intro fc p hg hd
    simp [fetch, hd, hpull fc p hg]
  · intro fc p evs hd hok
    rw [fetch, hd] at hok
    exact git_pull_no_clone fc p.name p.branch evs hok
  · intro g; simp [clone_uri]
  · intro h; simp [clone_uri]
  · intro b uri path hb; simp [clone_args, hb]
  · intro b; simp [switch_args]
  · intro b; simp [switch_args]

/-- Witness for `fetch_state_machine_spec`: an absent directory for a package
with a git location and a bound branch is created and cloned with `-b`. -/
theorem fetch_state_machine_spec_witness :
    fetch (fcOf []) { rootP "A" with branch := "dev" }
      = .ok [.mkdir "/r/A", .git ["clone", "-b", "dev", "gR", "/r/A"]] :=
  fetch_state_machine_spec.1 (fcOf []) { rootP "A" with branch := "dev" }
    (fun _ => rfl) (by decide) (by decide)

/-- Extending a closed built set with a package all of whose direct non-weak
dependencies are already in the set keeps it closed. -/
theorem good_extend (reg : Registry) (p : PacUnit) (built2 : List String)
    (hp : reg p.name = some p)
    (hcl : ∀ n m, n ∈ built2 → ReachName reg n m → m ∈ built2)
    (hall : ∀ d ∈ p.depends, d.fetchOnly = false → d.name ∈ built2) :
    ∀ n m, ReachName reg n m → n ∈ p.name :: built2 → m ∈ p.name :: built2 := by
  intro n m hr
  induction hr with
  | step hq hd hw =>
    rename_i n' q d
    intro hn
    rcases List.mem_cons.mp hn with he | hn2
    · subst he
      rw [hp] at hq
      injection hq with hq
      subst hq
      exact List.mem_cons_of_mem _ (hall d hd hw)
    · exact List.mem_cons_of_mem _ (hcl _ _ hn2 (ReachName.step hq hd hw))
  | trans h1 h2 ih1 ih2 =>
    intro hn
    exact ih2 (ih1 hn)

/-- The central invariant of the build phase: under a self-consistent
registry, a successful `build` only grows the built set, marks the package
itself built, and preserves closure of the built set; a successful
`buildDeps` additionally marks every non-weak edge target of its list
built. -/
theorem build_good (reg : Registry) (ctx : ExecCtx)
    (hreg : ∀ n q, reg n = some q → q.name = n) :
    ∀ fuel : Nat,
    (∀ (p : PacUnit) (st st' : BSt), reg p.name = some p → GoodB reg st →
      build reg ctx fuel p st = .ok st' →
      st.built ⊆ st'.built ∧ p.name ∈ st'.built ∧ GoodB reg st')
    ∧ (∀ (l : List DependencyDescriptor) (st st' : BSt), GoodB reg st →
      buildDeps reg ctx fuel l st = .ok st' →
      st.built ⊆ st'.built ∧ GoodB reg st'
        ∧ ∀ d ∈ l, d.fetchOnly = false → d.name ∈ st'.built) := by
  intro fuel
  induction fuel with
  | zero =>
    constructor
    · intro p st st' _ _ h
      simp [build] at h
    · intro l st st' hg h
      cases l with
      | nil =>
        simp only [buildDeps] at h
        cases h
        exact ⟨List.Subset.refl _, hg, by intro d hd _; cases hd⟩
      | cons d rest => simp [buildDeps] at h
  | succ fuel ih =>
    obtain ⟨ihB, ihD⟩ := ih
    constructor
    · intro p st st' hp hg h
      simp only [build] at h
      split at h
      · rename_i hmem
        cases h
        exact ⟨List.Subset.refl _, hmem, hg⟩
      · split at h
        · exact absurd h (by simp)
        · split at h
          · rename_i st2 heq2
            obtain ⟨hsub2, hg2, hall⟩ := ihD p.depends
              { built := st.built, inprocess := st.inprocess ++ [p.name],
                trace := st.trace } st2 hg heq2
            split at h
            · split at h
              · exact absurd h (by simp)
              · cases h
                refine ⟨List.subset_cons_of_subset _ hsub2, List.mem_cons_self _ _, ?_⟩
                intro n m hn hr
                exact good_extend reg p st2.built hp hg2 hall n m hr hn
            · cases h
              refine ⟨List.subset_cons_of_subset _ hsub2, List.mem_cons_self _ _, ?_⟩
              intro n m hn hr
              exact good_extend reg p st2.built hp hg2 hall n m hr hn
          · rename_i hne
            exact absurd h (hne st')
    · intro l st st' hg h
      cases l with
      | nil =>
        simp only [buildDeps] at h
        cases h
        exact ⟨List.Subset.refl _, hg, by intro d hd _; cases hd⟩
      | cons d rest =>
        simp only [buildDeps] at h
        split at h
        · rename_i hnw
          split at h
          · exact absurd h (by simp)
          · rename_i q hq
            split at h
            · rename_i st2 heq2
              have hqn : q.name = d.name := hreg d.name q hq
              have hq' : reg q.name = some q := by rw [hqn]; exact hq
              obtain ⟨hsub2, hqin, hg2⟩ := ihB q st st2 hq' hg heq2
              split at h
              · split at h
                · exact absurd h (by simp)
                · obtain ⟨hsub3, hg3, hall3⟩ := ihD rest
                    { built := st2.built, inprocess := st2.inprocess,
                      trace := st2.trace ++ (exec_commands ctx d.post).2 } st' hg2 h
                  refine ⟨List.Subset.trans hsub2 hsub3, hg3, ?_⟩
                  intro d' hd' hw'
                  rcases List.mem_cons.mp hd' with he | hm
                  · subst he
                    rw [← hqn]
                    exact hsub3 hqin
                  · exact hall3 d' hm hw'
              · obtain ⟨hsub3, hg3, hall3⟩ := ihD rest st2 st' hg2 h
                refine ⟨List.Subset.trans hsub2 hsub3, hg3, ?_⟩
                intro d' hd' hw'
                rcases List.mem_cons.mp hd' with he | hm
                · subst he
                  rw [← hqn]
                  exact hsub3 hqin
                · exact hall3 d' hm hw'
            · rename_i hne
              exact absurd h (hne st')
        · rename_i hnw
          obtain ⟨hsub3, hg3, hall3⟩ := ihD rest st st' hg h
          refine ⟨hsub3, hg3, ?_⟩
          intro d' hd' hw'
          rcases List.mem_cons.mp hd' with he | hm
          · subst he
            exact absurd hw' (by simpa using hnw)
          · exact hall3 d' hm hw'

/-- C6: build steps run at most once per run and only after every reachable
non-weak dependency is built.  (1) `build` returns immediately, with nothing
executed and no state change, when the package's built flag is set — so a
package shared by several referencers builds once.  (2) Under a
self-consistent registry and a closed initial built set, a successful
`build p` ends in a state whose built set contains every package reachable
from `p` through non-weak edges: `p`'s own steps, which are the last events
of `build p`, run only after all of them completed.  (3) In the concrete
diamond scenario (`R → A, B`, `A → C`, `B → C`) the executed commands are
exactly `C`'s, `A`'s, `B`'s, `R`'s, in dependency order — `C`'s build command
appears once although `C` has two referencers. -/
theorem build_once_ordered_spec :
    (∀ (reg : Registry) (ctx : ExecCtx) (fuel : Nat) (p : PacUnit) (st : BSt),
      p.name ∈ st.built → build reg ctx (fuel + 1) p st = .ok st)
    ∧ (∀ (reg : Registry) (ctx : ExecCtx) (fuel : Nat) (p : PacUnit)
        (st st' : BSt),
      (∀ n q, reg n = some q → q.name = n) → reg p.name = some p →
      GoodB reg st → build reg ctx fuel p st = .ok st' →
      ∀ m, ReachName reg p.name m → m ∈ st'.built)
    ∧ ((cpm_run (fcOf dlDiamond) osLinux false 20 (rootP "R")).events.filter
        Ev.isExec)
        = [.exec "buildC" [], .exec "buildA" [], .exec "buildB" [],
           .exec "buildR" []] := by
  refine ⟨fun reg ctx fuel p st h => by simp [build, h], ?_, by decide⟩
  intro reg ctx fuel p st st' hreg hp hg h m hr
  obtain ⟨hsub, hin, hg'⟩ := (build_good reg ctx hreg fuel).1 p st st' hp hg h
  exact hg' p.name m hin hr

/-- Witness for the quantified conjuncts of `build_once_ordered_spec`: a
package already marked built is returned unchanged, with no command run. -/
theorem build_once_ordered_spec_witness :
    build (mkReg []) osLinux 5 (rootP "A")
        { built := ["A"], inprocess := [], trace := [] }
      = .ok { built := ["A"], inprocess := [], trace := [] } :=
  build_once_ordered_spec.1 (mkReg []) osLinux 4 (rootP "A")
    { built := ["A"], inprocess := [], trace := [] } (by decide)
